import Mathlib

set_option maxRecDepth 8000

/-!
Verification of the OpenSSL-directory ranking, list deduplication,
install-target validation and exit-code logic of the ActivePython
install script (src/_install.py), as a shallow embedding in Lean 4.

Modelling conventions:
* The filesystem is a record of pure boolean query functions
  (os.path.isdir, os.path.isfile, os.path.exists).
* Python dicts keyed by strings are insertion-ordered association lists:
  assignment to an existing key updates the value in place, assignment
  to a fresh key appends at the end (CPython 3.7+ dict semantics).
* The subprocess call made by the script is abstracted as an optional
  textual result handed to the embedded function.
-/

structure FS where
  isdir : String → Bool
  isfile : String → Bool
  pathExists : String → Bool

def slashChar : Char := Char.ofNat 47

def startsWithSlash (s : String) : Bool :=
  match s.data with
  | [] => false
  | c :: _ => decide (c = slashChar)

def endsWithSlash (s : String) : Bool :=
  match s.data.getLast? with
  | none => false
  | some c => decide (c = slashChar)

/-- Embedding of posixpath.join restricted to the two-argument calls made by
the source (os.path.join(dir, "cert.pem") and similar). -/
def joinPath (a b : String) : String :=
  if startsWithSlash b then b
  else if a = "" then b
  else if endsWithSlash a then a ++ b
  else a ++ "/" ++ b

/-- The fixed candidate list _DEFAULT_OPENSSLDIRS of src/_install.py. -/
def _DEFAULT_OPENSSLDIRS : List String :=
  ["/usr/share/ssl",
   "/etc/pki/tls",
   "/usr/lib/ssl",
   "/etc/ssl",
   "/usr/local/ssl",
   "/System/Library/OpenSSL"]

/-- One iteration of the loop body of _list_dedupe: append the value to the
accumulator unless it is already present. -/
def dedupeStep {α : Type} [DecidableEq α] (uniques : List α) (val : α) : List α :=
  if val ∈ uniques then uniques else uniques ++ [val]

/-- Embedding of _list_dedupe (src/_install.py): the for loop over the input
values with accumulator list uniques is a left fold of dedupeStep. -/
def _list_dedupe {α : Type} [DecidableEq α] (values : List α) : List α :=
  values.foldl dedupeStep []

theorem mem_dedupeStep {α : Type} [DecidableEq α] {u : List α} {x : α} (v : α)
    (hx : x ∈ u) : x ∈ dedupeStep u v := by
  unfold dedupeStep
  split
  · exact hx
  · exact List.mem_append_left _ hx

theorem foldl_dedupeStep_mem {α : Type} [DecidableEq α] :
    ∀ (vs u : List α) (a : α), a ∈ vs.foldl dedupeStep u ↔ a ∈ u ∨ a ∈ vs := by
  intro vs
  induction vs with
  | nil => intro u a; simp
  | cons v vs ih =>
    intro u a
    rw [List.foldl_cons, ih]
    by_cases hv : v ∈ u
    · simp only [dedupeStep, if_pos hv, List.mem_cons]
      constructor
      · rintro (h | h)
        · exact Or.inl h
        · exact Or.inr (Or.inr h)
      · rintro (h | rfl | h)
        · exact Or.inl h
        · exact Or.inl hv
        · exact Or.inr h
    · simp only [dedupeStep, if_neg hv, List.mem_append, List.mem_singleton,
        List.mem_cons]
      tauto

theorem foldl_dedupeStep_nodup {α : Type} [DecidableEq α] :
    ∀ (vs u : List α), u.Nodup → (vs.foldl dedupeStep u).Nodup := by
  intro vs
  induction vs with
  | nil => intro u hu; simpa using hu
  | cons v vs ih =>
    intro u hu
    rw [List.foldl_cons]
    apply ih
    unfold dedupeStep
    split
    · exact hu
    · rename_i hv
      simp [List.nodup_append, hu, hv]

theorem foldl_dedupeStep_append {α : Type} [DecidableEq α] :
    ∀ (vs u : List α), ∃ rest, vs.foldl dedupeStep u = u ++ rest ∧ List.Sublist rest vs := by
  intro vs
  induction vs with
  | nil => intro u; exact ⟨[], by simp, List.Sublist.refl _⟩
  | cons v vs ih =>
    intro u
    rw [List.foldl_cons]
    by_cases hv : v ∈ u
    · obtain ⟨rest, heq, hsub⟩ := ih u
      refine ⟨rest, ?_, hsub.cons v⟩
      rwa [dedupeStep, if_pos hv]
    · obtain ⟨rest, heq, hsub⟩ := ih (u ++ [v])
      refine ⟨v :: rest, ?_, hsub.cons₂ v⟩
      rw [dedupeStep, if_neg hv, heq, List.append_assoc]
      rfl

theorem foldl_dedupeStep_skip {α : Type} [DecidableEq α] :
    ∀ (vs u : List α) (x : α), x ∈ u →
      vs.foldl dedupeStep u
        = (vs.filter (fun y => decide (y ≠ x))).foldl dedupeStep u := by
  intro vs
  induction vs with
  | nil => intro u x _; rfl
  | cons v vs ih =>
    intro u x hx
    by_cases hvx : v = x
    · subst hvx
      have hfil : (v :: vs).filter (fun y => decide (y ≠ v))
          = vs.filter (fun y => decide (y ≠ v)) := by
        simp [List.filter_cons]
      rw [hfil, List.foldl_cons, dedupeStep, if_pos hx]
      exact ih u v hx
    · have hfil : (v :: vs).filter (fun y => decide (y ≠ x))
          = v :: vs.filter (fun y => decide (y ≠ x)) := by
        simp [List.filter_cons, hvx]
      rw [hfil, List.foldl_cons, List.foldl_cons]
      exact ih (dedupeStep u v) x (mem_dedupeStep v hx)

theorem foldl_dedupeStep_consAcc {α : Type} [DecidableEq α] :
    ∀ (vs u : List α) (x : α), (∀ w ∈ vs, ¬ w = x) →
      vs.foldl dedupeStep (x :: u) = x :: vs.foldl dedupeStep u := by
  intro vs
  induction vs with
  | nil => intro u x _; rfl
  | cons v vs ih =>
    intro u x h
    have hvx : ¬ v = x := h v (List.mem_cons_self v vs)
    have hmem : v ∈ x :: u ↔ v ∈ u := by
      simp [List.mem_cons, hvx]
    rw [List.foldl_cons, List.foldl_cons]
    by_cases hv : v ∈ u
    · rw [dedupeStep, if_pos (hmem.mpr hv), dedupeStep, if_pos hv]
      exact ih u x (fun w hw => h w (List.mem_cons_of_mem v hw))
    · rw [dedupeStep, if_neg (fun hc => hv (hmem.mp hc)), dedupeStep, if_neg hv]
      have : x :: u ++ [v] = x :: (u ++ [v]) := rfl
      rw [this]
      exact ih (u ++ [v]) x (fun w hw => h w (List.mem_cons_of_mem v hw))

/-- _list_dedupe keeps the first occurrence of the head and drops every later
duplicate of it: the first-occurrence recursion. -/
theorem list_dedupe_cons {α : Type} [DecidableEq α] (x : α) (xs : List α) :
    _list_dedupe (x :: xs)
      = x :: _list_dedupe (xs.filter (fun y => decide (y ≠ x))) := by
  unfold _list_dedupe
  rw [List.foldl_cons]
  have h1 : dedupeStep ([] : List α) x = [x] := by
    simp [dedupeStep]
  rw [h1, foldl_dedupeStep_skip xs [x] x (List.mem_singleton_self x)]
  apply foldl_dedupeStep_consAcc
  intro w hw
  have := List.of_mem_filter hw
  simpa using this

theorem list_dedupe_nodup {α : Type} [DecidableEq α] (l : List α) :
    (_list_dedupe l).Nodup :=
  foldl_dedupeStep_nodup l [] List.nodup_nil

theorem list_dedupe_mem {α : Type} [DecidableEq α] (l : List α) (a : α) :
    a ∈ _list_dedupe l ↔ a ∈ l := by
  unfold _list_dedupe
  rw [foldl_dedupeStep_mem]
  simp

theorem list_dedupe_sublist {α : Type} [DecidableEq α] (l : List α) :
    List.Sublist (_list_dedupe l) l := by
  obtain ⟨rest, heq, hsub⟩ := foldl_dedupeStep_append l []
  unfold _list_dedupe
  rw [heq]
  simpa using hsub

theorem list_dedupe_of_nodup {α : Type} [DecidableEq α] :
    ∀ (l : List α), l.Nodup → _list_dedupe l = l := by
  intro l
  induction l with
  | nil => intro _; rfl
  | cons x xs ih =>
    intro h
    obtain ⟨hx, hxs⟩ := List.nodup_cons.mp h
    have hfil : xs.filter (fun y => decide (y ≠ x)) = xs := by
      apply List.filter_eq_self.mpr
      intro a ha
      simp only [decide_eq_true_eq]
      rintro rfl
      exact hx ha
    rw [list_dedupe_cons, hfil, ih hxs]

theorem list_dedupe_idem {α : Type} [DecidableEq α] (l : List α) :
    _list_dedupe (_list_dedupe l) = _list_dedupe l :=
  list_dedupe_of_nodup _ (list_dedupe_nodup l)

/-- Claim C9: _list_dedupe returns a duplicate-free list containing exactly
the distinct elements of its input, keeps elements in the order of their
first occurrence (it is a sublist obeying the first-occurrence recursion),
and is idempotent. -/
theorem list_dedupe_spec {α : Type} [DecidableEq α] (l : List α) :
    (_list_dedupe l).Nodup
    ∧ (∀ a, a ∈ _list_dedupe l ↔ a ∈ l)
    ∧ List.Sublist (_list_dedupe l) l
    ∧ (∀ (x : α) (xs : List α),
        _list_dedupe (x :: xs)
          = x :: _list_dedupe (xs.filter (fun y => decide (y ≠ x))))
    ∧ _list_dedupe (_list_dedupe l) = _list_dedupe l :=
  ⟨list_dedupe_nodup l, list_dedupe_mem l, list_dedupe_sublist l,
   list_dedupe_cons, list_dedupe_idem l⟩

/-!
The OpenSSL directory ranker (_get_default_openssldir, _rank_openssl_dir,
_analyze_ranks, _get_openssl_text of src/_install.py).
-/

/-- Python truthiness of the candidate equality test
openssl_dir == default_openssl (False when the default is None). -/
def isDefaultDir (default_openssl : Option String) (dir : String) : Bool :=
  match default_openssl with
  | some s => decide (dir = s)
  | none => false

/-- The score computed for one existing candidate directory by the loop body
of _rank_openssl_dir: base 1 for the default dir else 0, then add 4 when
cert.pem is a file and 2 when certs is a directory. -/
def dirScore (fs : FS) (default_openssl : Option String) (dir : String) : Nat :=
  let base := if isDefaultDir default_openssl dir then 1 else 0
  let s1 := if fs.isfile (joinPath dir "cert.pem") then base + 4 else base
  if fs.isdir (joinPath dir "certs") then s1 + 2 else s1

/-- Assignment openssl_rank[k] = v on an insertion-ordered dict: update the
value in place when the key is present, otherwise append. -/
def dictInsert (d : List (String × Nat)) (k : String) (v : Nat) :
    List (String × Nat) :=
  if k ∈ d.map Prod.fst then d.map (fun p => if p.1 = k then (k, v) else p)
  else d ++ [(k, v)]

/-- One iteration of the for loop of _rank_openssl_dir. -/
def rank_step (fs : FS) (default_openssl : Option String)
    (acc : List (String × Nat)) (dir : String) : List (String × Nat) :=
  if fs.isdir dir then dictInsert acc dir (dirScore fs default_openssl dir)
  else acc

/-- The loop of _rank_openssl_dir run over an explicit candidate list. -/
def rankOverList (fs : FS) (default_openssl : Option String)
    (dirs : List String) : List (String × Nat) :=
  dirs.foldl (rank_step fs default_openssl) []

/-- The candidate list built by _rank_openssl_dir:
[default_openssl] + _DEFAULT_OPENSSLDIRS when the default is truthy
(not None and not empty), else _DEFAULT_OPENSSLDIRS alone. -/
def opensslList (default_openssl : Option String) : List String :=
  match default_openssl with
  | some d => if d ≠ "" then d :: _DEFAULT_OPENSSLDIRS else _DEFAULT_OPENSSLDIRS
  | none => _DEFAULT_OPENSSLDIRS

/-- Embedding of _rank_openssl_dir (src/_install.py). -/
def _rank_openssl_dir (fs : FS) (default_openssl : Option String) :
    List (String × Nat) :=
  rankOverList fs default_openssl (opensslList default_openssl)

/-- max(openssl_rank.values()); the source only evaluates it on a non-empty
dict, where the fold below agrees with Python max. -/
def maxValue (openssl_rank : List (String × Nat)) : Nat :=
  (openssl_rank.map Prod.snd).foldl Nat.max 0

/-- The list comprehension max_keys of _analyze_ranks: keys whose value
equals the maximum, in dict order. -/
def max_keysOf (openssl_rank : List (String × Nat)) : List String :=
  (openssl_rank.filter (fun p => decide (p.2 = maxValue openssl_rank))).map
    Prod.fst

/-- Embedding of _analyze_ranks (src/_install.py). max_keys is provably
non-empty for a non-empty dict, so Python max_keys[0] is modelled as head?. -/
def _analyze_ranks (openssl_rank : List (String × Nat)) :
    Option String × Nat × Nat :=
  match openssl_rank with
  | [] => (none, 0, 0)
  | _ :: _ =>
    if 6 ≤ maxValue openssl_rank then ((max_keysOf openssl_rank).head?, 1, 1)
    else if 4 ≤ maxValue openssl_rank then
      ((max_keysOf openssl_rank).head?, 1, 0)
    else if 2 ≤ maxValue openssl_rank then
      ((max_keysOf openssl_rank).head?, 0, 1)
    else ((max_keysOf openssl_rank).head?, 0, 0)

/-- The list printed by _analyze_ranks when several keys tie at the maximum
score (empty when nothing is printed). -/
def _analyze_ranks_printed (openssl_rank : List (String × Nat)) :
    List String :=
  match openssl_rank with
  | [] => []
  | _ :: _ =>
    if 1 < (max_keysOf openssl_rank).length then max_keysOf openssl_rank
    else []

/-- Embedding of _get_default_openssldir: the subprocess call is abstracted
as an optional captured output. The input none models OSError or
subprocess.CalledProcessError, which the source catches and turns into
return None (Except.ok none). On a successful call the source takes
str(output).split on the double-quote character at index 1: when the output
has no double quote that indexing raises an uncaught IndexError, which is
fatal in the program and is modelled as Except.error (). -/
def _get_default_openssldir (output : Option String) :
    Except Unit (Option String) :=
  match output with
  | none => Except.ok none
  | some s =>
    match (s.split (fun c => decide (c = Char.ofNat 34))).get? 1 with
    | some d => Except.ok (some d)
    | none => Except.error ()

def notFoundMsg : String := "Openssl directory not found in an expected location."

/-- The non-raising remainder of _get_openssl_text once the default
openssldir lookup has completed: the triple built from the ranked dict. -/
def openssl_text_of (fs : FS) (default_openssl : Option String) :
    String × String × String :=
  match _analyze_ranks (_rank_openssl_dir fs default_openssl) with
  | (some openssl_dir, cert_pem, cert_dir) =>
    if openssl_dir ≠ "" then
      ("export OPENSSLDIR=" ++ openssl_dir,
       if cert_pem ≠ 0 then
         "export SSL_CERT_FILE=" ++ joinPath openssl_dir "cert.pem"
       else "",
       if cert_dir ≠ 0 then
         "export SSL_CERT_DIR=" ++ joinPath openssl_dir "certs"
       else "")
    else (notFoundMsg, "", "")
  | (none, _, _) => (notFoundMsg, "", "")

/-- Embedding of _get_openssl_text (src/_install.py): an IndexError raised
inside the _get_default_openssldir call propagates out of it. -/
def _get_openssl_text (fs : FS) (output : Option String) :
    Except Unit (String × String × String) :=
  match _get_default_openssldir output with
  | Except.error e => Except.error e
  | Except.ok default_openssl => Except.ok (openssl_text_of fs default_openssl)

/-!
Lemmas about the ranking loop.
-/

theorem dictInsert_keys (d : List (String × Nat)) (k : String) (v : Nat) :
    (dictInsert d k v).map Prod.fst = dedupeStep (d.map Prod.fst) k := by
  unfold dictInsert dedupeStep
  split
  · rw [List.map_map]
    apply List.map_congr_left
    intro p _
    simp only [Function.comp_apply]
    split
    · rename_i hp
      exact hp.symm
    · rfl
  · simp

theorem foldl_rank_step_keys (fs : FS) (default_openssl : Option String) :
    ∀ (dirs : List String) (acc : List (String × Nat)),
      (dirs.foldl (rank_step fs default_openssl) acc).map Prod.fst
        = (dirs.filter fs.isdir).foldl dedupeStep (acc.map Prod.fst) := by
  intro dirs
  induction dirs with
  | nil => intro acc; rfl
  | cons dir dirs ih =>
    intro acc
    rw [List.foldl_cons, List.filter_cons]
    by_cases hd : fs.isdir dir
    · rw [if_pos hd, List.foldl_cons, ih, rank_step, if_pos hd, dictInsert_keys]
    · rw [if_neg hd, ih, rank_step, if_neg hd]

/-- The keys of the score dict are the existing candidates, deduplicated in
first-encountered order. -/
theorem rank_keys_eq (fs : FS) (default_openssl : Option String) :
    (_rank_openssl_dir fs default_openssl).map Prod.fst
      = _list_dedupe ((opensslList default_openssl).filter fs.isdir) := by
  unfold _rank_openssl_dir rankOverList _list_dedupe
  rw [foldl_rank_step_keys]
  rfl

/-- Invariant of the ranking loop: every entry of the dict pairs an existing
directory with its computed score. -/
def RankConsistent (fs : FS) (default_openssl : Option String)
    (acc : List (String × Nat)) : Prop :=
  ∀ p ∈ acc, p.2 = dirScore fs default_openssl p.1 ∧ fs.isdir p.1 = true

theorem rankConsistent_step (fs : FS) (default_openssl : Option String)
    (acc : List (String × Nat)) (dir : String)
    (h : RankConsistent fs default_openssl acc) :
    RankConsistent fs default_openssl (rank_step fs default_openssl acc dir) := by
  unfold rank_step
  by_cases hd : fs.isdir dir
  · rw [if_pos hd]
    unfold dictInsert
    split
    · intro p hp
      obtain ⟨q, hq, rfl⟩ := List.mem_map.mp hp
      by_cases hqk : q.1 = dir
      · rw [if_pos hqk]
        exact ⟨rfl, hd⟩
      · rw [if_neg hqk]
        exact h q hq
    · intro p hp
      rcases List.mem_append.mp hp with hp | hp
      · exact h p hp
      · rcases List.mem_singleton.mp hp with rfl
        exact ⟨rfl, hd⟩
  · rw [if_neg hd]
    exact h

theorem rankConsistent_foldl (fs : FS) (default_openssl : Option String) :
    ∀ (dirs : List String) (acc : List (String × Nat)),
      RankConsistent fs default_openssl acc →
      RankConsistent fs default_openssl
        (dirs.foldl (rank_step fs default_openssl) acc) := by
  intro dirs
  induction dirs with
  | nil => intro acc h; exact h
  | cons dir dirs ih =>
    intro acc h
    rw [List.foldl_cons]
    exact ih _ (rankConsistent_step fs default_openssl acc dir h)

theorem rank_consistent (fs : FS) (default_openssl : Option String) :
    RankConsistent fs default_openssl (_rank_openssl_dir fs default_openssl) :=
  rankConsistent_foldl fs default_openssl _ [] (by intro p hp; cases hp)

theorem dirScore_eq_sum (fs : FS) (default_openssl : Option String)
    (dir : String) :
    dirScore fs default_openssl dir
      = (if isDefaultDir default_openssl dir then 1 else 0)
        + (if fs.isfile (joinPath dir "cert.pem") then 4 else 0)
        + (if fs.isdir (joinPath dir "certs") then 2 else 0) := by
  unfold dirScore
  cases isDefaultDir default_openssl dir <;>
    cases hf : fs.isfile (joinPath dir "cert.pem") <;>
      cases hd : fs.isdir (joinPath dir "certs") <;> simp [hf, hd]

theorem dirScore_le_seven (fs : FS) (default_openssl : Option String)
    (dir : String) : dirScore fs default_openssl dir ≤ 7 := by
  rw [dirScore_eq_sum]
  split <;> split <;> split <;> omega

theorem foldl_max_mem :
    ∀ (t : List Nat) (a : Nat), t.foldl Nat.max a = a ∨ t.foldl Nat.max a ∈ t := by
  intro t
  induction t with
  | nil => intro a; exact Or.inl rfl
  | cons b t ih =>
    intro a
    rw [List.foldl_cons]
    rcases ih (Nat.max a b) with h | h
    · rw [h]
      have hm : Nat.max a b = a ∨ Nat.max a b = b := max_choice a b
      rcases hm with hm | hm
      · exact Or.inl hm
      · right
        rw [hm]
        exact List.mem_cons_self b t
    · exact Or.inr (List.mem_cons_of_mem b h)

/-- For a non-empty dict the maximum of the values is attained. -/
theorem maxValue_mem (openssl_rank : List (String × Nat))
    (h : openssl_rank ≠ []) : maxValue openssl_rank ∈ openssl_rank.map Prod.snd := by
  match openssl_rank with
  | [] => exact absurd rfl h
  | p :: rest =>
    unfold maxValue
    have h0 : Nat.max 0 p.2 = p.2 := Nat.zero_max p.2
    rw [List.map_cons, List.foldl_cons, h0]
    rcases foldl_max_mem (rest.map Prod.snd) p.2 with heq | hmem
    · rw [heq]
      exact List.mem_cons_self _ _
    · exact List.mem_cons_of_mem _ hmem

theorem max_keysOf_ne_nil (openssl_rank : List (String × Nat))
    (h : openssl_rank ≠ []) : max_keysOf openssl_rank ≠ [] := by
  have hmem := maxValue_mem openssl_rank h
  obtain ⟨p, hp, hv⟩ := List.mem_map.mp hmem
  unfold max_keysOf
  intro hc
  have : p ∈ openssl_rank.filter (fun q => decide (q.2 = maxValue openssl_rank)) :=
    List.mem_filter.mpr ⟨hp, by simp [hv]⟩
  rw [List.map_eq_nil_iff] at hc
  rw [hc] at this
  cases this

theorem mem_max_keysOf (openssl_rank : List (String × Nat)) (k : String)
    (h : k ∈ max_keysOf openssl_rank) : k ∈ openssl_rank.map Prod.fst := by
  unfold max_keysOf at h
  obtain ⟨p, hp, rfl⟩ := List.mem_map.mp h
  exact List.mem_map.mpr ⟨p, List.mem_filter.mp hp |>.1, rfl⟩

/-- The canonical directory returned by _analyze_ranks is the head of
max_keys in every branch. -/
theorem analyze_ranks_fst (openssl_rank : List (String × Nat))
    (h : openssl_rank ≠ []) :
    (_analyze_ranks openssl_rank).1 = (max_keysOf openssl_rank).head? := by
  match openssl_rank with
  | [] => exact absurd rfl h
  | p :: rest =>
    simp only [_analyze_ranks]
    split
    · rfl
    · split
      · rfl
      · split
        · rfl
        · rfl

/-- Writing a key back with the value it already holds leaves the dict
unchanged. -/
theorem dictInsert_self (acc : List (String × Nat)) (k : String) (v : Nat)
    (hval : ∀ p ∈ acc, p.1 = k → p.2 = v) (hk : k ∈ acc.map Prod.fst) :
    dictInsert acc k v = acc := by
  unfold dictInsert
  rw [if_pos hk]
  conv_rhs => rw [← List.map_id acc]
  apply List.map_congr_left
  intro p hp
  by_cases hpk : p.1 = k
  · rw [if_pos hpk]
    have h2 := hval p hp hpk
    cases p
    simp_all
  · rw [if_neg hpk]
    rfl

theorem mem_keys_rank_step (fs : FS) (default_openssl : Option String)
    (acc : List (String × Nat)) (dir x : String)
    (hx : x ∈ acc.map Prod.fst) :
    x ∈ (rank_step fs default_openssl acc dir).map Prod.fst := by
  unfold rank_step
  split
  · rw [dictInsert_keys]
    exact mem_dedupeStep dir hx
  · exact hx

/-- Candidates whose score entry is already present and up to date are
skipped without effect: the loop over dirs equals the loop over dirs with
every later occurrence of x removed. -/
theorem foldl_rank_step_skip (fs : FS) (default_openssl : Option String) :
    ∀ (dirs : List String) (acc : List (String × Nat)) (x : String),
      RankConsistent fs default_openssl acc →
      (fs.isdir x = true → x ∈ acc.map Prod.fst) →
      dirs.foldl (rank_step fs default_openssl) acc
        = (dirs.filter (fun y => decide (y ≠ x))).foldl
            (rank_step fs default_openssl) acc := by
  intro dirs
  induction dirs with
  | nil => intro acc x _ _; rfl
  | cons v dirs ih =>
    intro acc x hcons hkeys
    by_cases hvx : v = x
    · subst hvx
      have hfil : (v :: dirs).filter (fun y => decide (y ≠ v))
          = dirs.filter (fun y => decide (y ≠ v)) := by
        simp [List.filter_cons]
      have hstep : rank_step fs default_openssl acc v = acc := by
        unfold rank_step
        split
        · rename_i hd
          apply dictInsert_self
          · intro p hp hpk
            rw [(hcons p hp).1, hpk]
          · exact hkeys hd
        · rfl
      rw [hfil, List.foldl_cons, hstep]
      exact ih acc v hcons hkeys
    · have hfil : (v :: dirs).filter (fun y => decide (y ≠ x))
          = v :: dirs.filter (fun y => decide (y ≠ x)) := by
        simp [List.filter_cons, hvx]
      rw [hfil, List.foldl_cons, List.foldl_cons]
      exact ih _ x (rankConsistent_step fs default_openssl acc v hcons)
        (fun hd => mem_keys_rank_step fs default_openssl acc v x (hkeys hd))

/-- When no directory exists at all the ranking loop produces the empty
dict. -/
theorem rank_empty_of_no_dirs (fs : FS) (default_openssl : Option String)
    (h : ∀ p, fs.isdir p = false) :
    _rank_openssl_dir fs default_openssl = [] := by
  unfold _rank_openssl_dir rankOverList
  have : ∀ (dirs : List String) (acc : List (String × Nat)),
      dirs.foldl (rank_step fs default_openssl) acc = acc := by
    intro dirs
    induction dirs with
    | nil => intro acc; rfl
    | cons dir dirs ih =>
      intro acc
      rw [List.foldl_cons, rank_step, if_neg (by simp [h dir]), ih]
  exact this _ []

/-!
Concrete filesystems used as witnesses and counterexamples.
-/

def fsEmpty : FS where
  isdir := fun _ => false
  isfile := fun _ => false
  pathExists := fun _ => false

def fsFake : FS where
  isdir := fun p => decide (p = "/fakessl") || decide (p = "/fakessl/certs")
  isfile := fun p => decide (p = "/fakessl/cert.pem")
  pathExists := fun _ => false

def fsTie : FS where
  isdir := fun p => decide (p = "/etc/ssl") || decide (p = "/usr/local/ssl")
  isfile := fun _ => false
  pathExists := fun _ => false

def fsCertFile : FS where
  isdir := fun p => decide (p = "/etc/ssl")
  isfile := fun p => decide (p = "/etc/ssl/cert.pem")
  pathExists := fun _ => false

/-- Claim C1: every entry of the score dict built by _rank_openssl_dir pairs
a candidate directory that exists on disk with the score (1 if it equals the
system default else 0) + (4 if cert.pem is a file directly inside it else 0)
+ (2 if a certs subdirectory exists inside it else 0); every score is at
most 7 (and at least 0, being a Nat); and every candidate that exists on
disk does receive a score, so only non-existing candidates receive none. -/
theorem rank_score_spec (fs : FS) (default_openssl : Option String) :
    (∀ dir score, (dir, score) ∈ _rank_openssl_dir fs default_openssl →
      fs.isdir dir = true
      ∧ score = (if isDefaultDir default_openssl dir then 1 else 0)
          + (if fs.isfile (joinPath dir "cert.pem") then 4 else 0)
          + (if fs.isdir (joinPath dir "certs") then 2 else 0)
      ∧ score ≤ 7)
    ∧ (∀ dir, dir ∈ opensslList default_openssl → fs.isdir dir = true →
        dir ∈ (_rank_openssl_dir fs default_openssl).map Prod.fst) := by
  constructor
  · intro dir score hmem
    have h := rank_consistent fs default_openssl (dir, score) hmem
    refine ⟨h.2, ?_, ?_⟩
    · rw [show score = dirScore fs default_openssl dir from h.1]
      exact dirScore_eq_sum fs default_openssl dir
    · rw [show score = dirScore fs default_openssl dir from h.1]
      exact dirScore_le_seven fs default_openssl dir
  · intro dir hdir hisdir
    rw [rank_keys_eq, list_dedupe_mem]
    exact List.mem_filter.mpr ⟨hdir, hisdir⟩

theorem rank_score_spec_witness :
    (fsFake.isdir "/fakessl" = true
      ∧ (7 : Nat) = (if isDefaultDir (some "/fakessl") "/fakessl" then 1 else 0)
          + (if fsFake.isfile (joinPath "/fakessl" "cert.pem") then 4 else 0)
          + (if fsFake.isdir (joinPath "/fakessl" "certs") then 2 else 0)
      ∧ (7 : Nat) ≤ 7)
    ∧ "/fakessl" ∈ (_rank_openssl_dir fsFake (some "/fakessl")).map Prod.fst :=
  ⟨(rank_score_spec fsFake (some "/fakessl")).1 "/fakessl" 7 (by decide),
   (rank_score_spec fsFake (some "/fakessl")).2 "/fakessl" (by decide) (by decide)⟩

/-- Claim C2: for every non-empty score dict _analyze_ranks maps the maximum
score to the two recommendation flags by the threshold table: at least 6
gives (1, 1); in [4, 6) gives (1, 0); in [2, 4) gives (0, 1); below 2 gives
(0, 0). -/
theorem analyze_threshold_spec (openssl_rank : List (String × Nat))
    (h : openssl_rank ≠ []) :
    (6 ≤ maxValue openssl_rank → (_analyze_ranks openssl_rank).2 = (1, 1))
    ∧ (4 ≤ maxValue openssl_rank → maxValue openssl_rank < 6 →
        (_analyze_ranks openssl_rank).2 = (1, 0))
    ∧ (2 ≤ maxValue openssl_rank → maxValue openssl_rank < 4 →
        (_analyze_ranks openssl_rank).2 = (0, 1))
    ∧ (maxValue openssl_rank < 2 → (_analyze_ranks openssl_rank).2 = (0, 0)) := by
  match openssl_rank with
  | [] => exact absurd rfl h
  | p :: rest =>
    simp only [_analyze_ranks]
    refine ⟨?_, ?_, ?_, ?_⟩
    · intro h6
      rw [if_pos h6]
    · intro h4 h6
      rw [if_neg (by omega), if_pos h4]
    · intro h2 h4
      rw [if_neg (by omega), if_neg (by omega), if_pos h2]
    · intro h2
      rw [if_neg (by omega), if_neg (by omega), if_neg (by omega)]

theorem analyze_threshold_witness :
    _rank_openssl_dir fsFake (some "/fakessl") = [("/fakessl", 7)]
    ∧ (_analyze_ranks (_rank_openssl_dir fsFake (some "/fakessl"))).2 = (1, 1) :=
  ⟨by decide,
   (analyze_threshold_spec (_rank_openssl_dir fsFake (some "/fakessl"))
     (by decide)).1 (by decide)⟩

theorem analyze_ranks_printed_of_tie (openssl_rank : List (String × Nat))
    (hne : openssl_rank ≠ []) (h : 1 < (max_keysOf openssl_rank).length) :
    _analyze_ranks_printed openssl_rank = max_keysOf openssl_rank := by
  match openssl_rank with
  | [] => exact absurd rfl hne
  | p :: rest =>
    simp only [_analyze_ranks_printed]
    rw [if_pos h]

/-- Claim C3: when several candidates tie at the maximum score, the whole
tied key list is the one surfaced to the user, the canonical directory
returned is the head of that list, and the dict keys are exactly the
existing candidates in first-encountered candidate-list order. -/
theorem analyze_tie_spec (fs : FS) (default_openssl : Option String)
    (h : 1 < (max_keysOf (_rank_openssl_dir fs default_openssl)).length) :
    _analyze_ranks_printed (_rank_openssl_dir fs default_openssl)
      = max_keysOf (_rank_openssl_dir fs default_openssl)
    ∧ (_analyze_ranks (_rank_openssl_dir fs default_openssl)).1
      = (max_keysOf (_rank_openssl_dir fs default_openssl)).head?
    ∧ (_rank_openssl_dir fs default_openssl).map Prod.fst
      = _list_dedupe ((opensslList default_openssl).filter fs.isdir) := by
  have hne : _rank_openssl_dir fs default_openssl ≠ [] := by
    intro hc
    rw [hc] at h
    simp [max_keysOf] at h
  exact ⟨analyze_ranks_printed_of_tie _ hne h, analyze_ranks_fst _ hne,
    rank_keys_eq fs default_openssl⟩

theorem analyze_tie_witness :
    _analyze_ranks_printed (_rank_openssl_dir fsTie none)
      = max_keysOf (_rank_openssl_dir fsTie none)
    ∧ (_analyze_ranks (_rank_openssl_dir fsTie none)).1
      = (max_keysOf (_rank_openssl_dir fsTie none)).head?
    ∧ (_rank_openssl_dir fsTie none).map Prod.fst
      = _list_dedupe ((opensslList none).filter fsTie.isdir) :=
  analyze_tie_spec fsTie none (by decide)

/-- Claim C4: an absent OpenSSL tool is never fatal — the subprocess failure
is caught and _get_default_openssldir completes with no result (Except.ok
none) — and whenever the default-dir lookup completes (it only raises on a
successful subprocess call whose output lacks a double quote, a case outside
this claim) and no candidate directory exists on disk, the ranker degrades
to the "not found" result with both flags 0 and _get_openssl_text still
returns the definite informational triple. -/
theorem openssl_advisory_nonfatal (fs : FS) (output : Option String)
    (h : ∀ p, fs.isdir p = false) :
    (∀ default_openssl,
      _get_default_openssldir output = Except.ok default_openssl →
      _analyze_ranks (_rank_openssl_dir fs default_openssl) = (none, 0, 0)
      ∧ _get_openssl_text fs output = Except.ok (notFoundMsg, "", ""))
    ∧ _get_default_openssldir none = Except.ok none := by
  refine ⟨?_, rfl⟩
  intro default_openssl hd
  have hempty := rank_empty_of_no_dirs fs default_openssl h
  constructor
  · rw [hempty]
    rfl
  · unfold _get_openssl_text
    rw [hd]
    show Except.ok (openssl_text_of fs default_openssl)
      = Except.ok (notFoundMsg, "", "")
    unfold openssl_text_of
    rw [hempty]
    rfl

theorem openssl_advisory_nonfatal_witness :
    (_analyze_ranks (_rank_openssl_dir fsEmpty none) = (none, 0, 0)
      ∧ _get_openssl_text fsEmpty none = Except.ok (notFoundMsg, "", ""))
    ∧ _get_default_openssldir none = Except.ok none :=
  ⟨(openssl_advisory_nonfatal fsEmpty none (fun _ => rfl)).1 none rfl,
   (openssl_advisory_nonfatal fsEmpty none (fun _ => rfl)).2⟩

/-- Claim C5 counterexample: a single candidate scoring 4 (cert.pem present,
not the default, no certs subdirectory) has maximum score at least 2, yet
the cert-directory recommendation is 0, so the cert-dir flag is not the
threshold function "true whenever the maximum score is at least 2". -/
theorem analyze_certdir_threshold_cx :
    _rank_openssl_dir fsCertFile none = [("/etc/ssl", 4)]
    ∧ 2 ≤ maxValue [("/etc/ssl", 4)]
    ∧ ¬((_analyze_ranks [("/etc/ssl", 4)]).2.2 = 1) := by decide

/-- Claim C5 (amended): the cert-file flag is 1 exactly when the maximum
score is at least 4; the cert-dir flag is 1 exactly when the maximum score
is at least 6 or lies in [2, 4) — it is not a plain threshold at 2. -/
theorem analyze_flags_iff (openssl_rank : List (String × Nat))
    (h : openssl_rank ≠ []) :
    ((_analyze_ranks openssl_rank).2.1 = 1 ↔ 4 ≤ maxValue openssl_rank)
    ∧ ((_analyze_ranks openssl_rank).2.2 = 1 ↔
        (6 ≤ maxValue openssl_rank
          ∨ (2 ≤ maxValue openssl_rank ∧ maxValue openssl_rank < 4))) := by
  match openssl_rank with
  | [] => exact absurd rfl h
  | p :: rest =>
    simp only [_analyze_ranks]
    constructor <;> split_ifs <;> simp <;> omega

theorem analyze_flags_iff_witness :
    (_analyze_ranks [("/etc/ssl", 4)]).2.1 = 1 :=
  (analyze_flags_iff [("/etc/ssl", 4)] (by decide)).1.mpr (by decide)

/-- Claim C10: the score dict is keyed by path, so when the system default
also appears in the fixed candidate list it still gets exactly one entry
(the keys are duplicate-free), and the second visit recomputes the identical
score, so the whole dict equals the one obtained from the candidate list
with duplicates removed. -/
theorem rank_duplicate_default_spec (fs : FS) (d : String)
    (hd : d ∈ _DEFAULT_OPENSSLDIRS) :
    ((_rank_openssl_dir fs (some d)).map Prod.fst).Nodup
    ∧ _rank_openssl_dir fs (some d)
      = rankOverList fs (some d) (_list_dedupe (opensslList (some d))) := by
  have hne : d ≠ "" := by
    have hall : ∀ x ∈ _DEFAULT_OPENSSLDIRS, x ≠ "" := by decide
    exact hall d hd
  have hlist : opensslList (some d) = d :: _DEFAULT_OPENSSLDIRS := by
    simp only [opensslList]
    rw [if_pos hne]
  constructor
  · rw [rank_keys_eq]
    exact list_dedupe_nodup _
  · have hdefault_nodup : _DEFAULT_OPENSSLDIRS.Nodup := by decide
    have hfil_nodup :=
      hdefault_nodup.filter (fun y => decide (y ≠ d))
    have hded : _list_dedupe (d :: _DEFAULT_OPENSSLDIRS)
        = d :: _DEFAULT_OPENSSLDIRS.filter (fun y => decide (y ≠ d)) := by
      rw [list_dedupe_cons, list_dedupe_of_nodup _ hfil_nodup]
    unfold _rank_openssl_dir rankOverList
    rw [hlist, hded, List.foldl_cons, List.foldl_cons]
    have hcons : RankConsistent fs (some d) (rank_step fs (some d) [] d) :=
      rankConsistent_step fs (some d) [] d (by intro p hp; cases hp)
    have hkey : fs.isdir d = true →
        d ∈ (rank_step fs (some d) [] d).map Prod.fst := by
      intro hdd
      unfold rank_step
      rw [if_pos hdd]
      unfold dictInsert
      simp
    exact foldl_rank_step_skip fs (some d) _DEFAULT_OPENSSLDIRS _ d hcons hkey

theorem rank_duplicate_default_witness :
    ((_rank_openssl_dir fsCertFile (some "/etc/ssl")).map Prod.fst).Nodup
    ∧ _rank_openssl_dir fsCertFile (some "/etc/ssl")
      = rankOverList fsCertFile (some "/etc/ssl")
          (_list_dedupe (opensslList (some "/etc/ssl"))) :=
  rank_duplicate_default_spec fsCertFile "/etc/ssl" (by decide)

/-!
State-passing embedding of the ranking loop: every os.path call made by
_rank_openssl_dir is threaded through the filesystem state explicitly, so
that read-only-ness is a provable statement about the final state.
-/

def os_path_isdir (p : String) (fs : FS) : Bool × FS := (fs.isdir p, fs)

def os_path_isfile (p : String) (fs : FS) : Bool × FS := (fs.isfile p, fs)

def rank_step_st (default_openssl : Option String)
    (st : List (String × Nat) × FS) (dir : String) :
    List (String × Nat) × FS :=
  let q1 := os_path_isdir dir st.2
  if q1.1 then
    let base := if isDefaultDir default_openssl dir then 1 else 0
    let q2 := os_path_isfile (joinPath dir "cert.pem") q1.2
    let s1 := if q2.1 then base + 4 else base
    let q3 := os_path_isdir (joinPath dir "certs") q2.2
    let s2 := if q3.1 then s1 + 2 else s1
    (dictInsert st.1 dir s2, q3.2)
  else (st.1, q1.2)

def _rank_openssl_dir_st (fs : FS) (default_openssl : Option String) :
    List (String × Nat) × FS :=
  (opensslList default_openssl).foldl (rank_step_st default_openssl) ([], fs)

theorem rank_step_st_eq (default_openssl : Option String)
    (acc : List (String × Nat)) (fs : FS) (dir : String) :
    rank_step_st default_openssl (acc, fs) dir
      = (rank_step fs default_openssl acc dir, fs) := by
  unfold rank_step_st rank_step os_path_isdir os_path_isfile dirScore
  by_cases hd : fs.isdir dir
  · simp [hd]
  · simp [hd]

theorem foldl_rank_step_st (default_openssl : Option String) :
    ∀ (dirs : List String) (acc : List (String × Nat)) (fs : FS),
      dirs.foldl (rank_step_st default_openssl) (acc, fs)
        = (dirs.foldl (rank_step fs default_openssl) acc, fs) := by
  intro dirs
  induction dirs with
  | nil => intro acc fs; rfl
  | cons dir dirs ih =>
    intro acc fs
    rw [List.foldl_cons, List.foldl_cons, rank_step_st_eq]
    exact ih _ fs

theorem analyze_ranks_flag_bounds (openssl_rank : List (String × Nat)) :
    (_analyze_ranks openssl_rank).2.1 ≤ 1
    ∧ (_analyze_ranks openssl_rank).2.2 ≤ 1 := by
  match openssl_rank with
  | [] => exact ⟨Nat.zero_le 1, Nat.zero_le 1⟩
  | p :: rest =>
    simp only [_analyze_ranks]
    split_ifs <;> simp

theorem analyze_ranks_definite (openssl_rank : List (String × Nat)) :
    (openssl_rank = [] ∧ _analyze_ranks openssl_rank = (none, 0, 0))
    ∨ (∃ k, (_analyze_ranks openssl_rank).1 = some k
        ∧ k ∈ openssl_rank.map Prod.fst) := by
  match openssl_rank with
  | [] => exact Or.inl ⟨rfl, rfl⟩
  | p :: rest =>
    right
    have hne : (p :: rest : List (String × Nat)) ≠ [] := by simp
    have hk := max_keysOf_ne_nil (p :: rest) hne
    match hmk : max_keysOf (p :: rest) with
    | [] => exact absurd hmk hk
    | k :: ks =>
      refine ⟨k, ?_, ?_⟩
      · rw [analyze_ranks_fst _ hne, hmk]
        rfl
      · apply mem_max_keysOf
        rw [hmk]
        exact List.mem_cons_self _ _

/-- Claim C8: the ranking step is read-only — threading the filesystem
through every os.path call of _rank_openssl_dir returns it unchanged while
computing the very same dict — and _analyze_ranks always returns a definite
triple: both flags are 0 or 1 and the directory is either none with the
"not found" triple (empty dict) or one of the scored keys. -/
theorem rank_readonly_spec (fs : FS) (default_openssl : Option String) :
    (_rank_openssl_dir_st fs default_openssl).2 = fs
    ∧ (_rank_openssl_dir_st fs default_openssl).1
      = _rank_openssl_dir fs default_openssl
    ∧ (_analyze_ranks (_rank_openssl_dir fs default_openssl)).2.1 ≤ 1
    ∧ (_analyze_ranks (_rank_openssl_dir fs default_openssl)).2.2 ≤ 1
    ∧ ((_rank_openssl_dir fs default_openssl = []
          ∧ _analyze_ranks (_rank_openssl_dir fs default_openssl)
            = (none, 0, 0))
        ∨ (∃ k,
            (_analyze_ranks (_rank_openssl_dir fs default_openssl)).1 = some k
            ∧ k ∈ (_rank_openssl_dir fs default_openssl).map Prod.fst)) := by
  refine ⟨?_, ?_, (analyze_ranks_flag_bounds _).1,
    (analyze_ranks_flag_bounds _).2, analyze_ranks_definite _⟩
  · unfold _rank_openssl_dir_st
    rw [foldl_rank_step_st]
  · unfold _rank_openssl_dir_st _rank_openssl_dir rankOverList
    rw [foldl_rank_step_st]

/-!
Install-target validation and the effect skeleton of install
(_validateInstallDir and install of src/_install.py).
-/

def squote : String := String.mk [Char.ofNat 39]

/-- The message of the Error raised by _validateInstallDir. -/
def installErrMsg (installDir : String) : String :=
  "cannot install to " ++ squote ++ installDir ++ squote
    ++ ": exists and is not a directory"

/-- Embedding of _validateInstallDir (src/_install.py): raises Error exactly
when the path exists and is not a directory. -/
def _validateInstallDir (fs : FS) (installDir : String) : Except String Unit :=
  if fs.pathExists installDir && !(fs.isdir installDir) then
    Except.error (installErrMsg installDir)
  else Except.ok ()

inductive FsEvent where
  | chdirEvent (p : String)
  | makedirsEvent (p : String)
  | copyEvent (dst : String)
  | relocateEvent (dst : String)
  | rpathEvent (dst : String)
  | qtConfEvent (dst : String)

/-- Whether an event mutates the filesystem at the destination (chdir only
changes the process working directory). -/
def mutatesDest : FsEvent → Bool
  | FsEvent.chdirEvent _ => false
  | _ => true

inductive InstallOutcome where
  | finishedOk
  | sysExit (code : Nat)
  | raised (msg : String)

/-- The qt.conf rewriting of _qt_config happens only when a Qt directory
exists under the install path. -/
def qtEvents (fs : FS) (dst : String) : List FsEvent :=
  if fs.pathExists (joinPath dst "Qt") then [FsEvent.qtConfEvent dst] else []

/-- Embedding of the effect skeleton of install (src/_install.py): the
filesystem-touching steps in source order, at the granularity needed for
the validation-before-mutation claim. The path normalisation
os.path.abspath(os.path.normpath(os.path.expanduser(...))) is abstracted as
the parameter abspathF, the chdir target (the unpack directory) as
unpackDir, and shutil.which("patchelf") as havePatchelf. Windows-only
registry, COM and PATH side effects, which do not touch the destination
filesystem, are not itemised. -/
def install (fs : FS) (abspathF : String → String) (unpackDir : String)
    (isWin havePatchelf setRootRunpath : Bool) (installDir : String) :
    List FsEvent × InstallOutcome :=
  if setRootRunpath && !havePatchelf then ([], InstallOutcome.sysExit 1)
  else
    match _validateInstallDir fs (abspathF installDir) with
    | Except.error e =>
      ([FsEvent.chdirEvent unpackDir], InstallOutcome.raised e)
    | Except.ok _ =>
      if isWin then
        ([FsEvent.chdirEvent unpackDir]
          ++ (if !(fs.pathExists (abspathF installDir)) then
                [FsEvent.makedirsEvent (abspathF installDir)] else [])
          ++ [FsEvent.copyEvent (abspathF installDir)]
          ++ qtEvents fs (abspathF installDir),
         InstallOutcome.finishedOk)
      else
        ([FsEvent.chdirEvent unpackDir]
          ++ [FsEvent.copyEvent (abspathF installDir),
              FsEvent.relocateEvent (abspathF installDir)]
          ++ (if setRootRunpath then
                [FsEvent.rpathEvent (abspathF installDir)] else [])
          ++ qtEvents fs (abspathF installDir),
         InstallOutcome.finishedOk)

/-- Claim C6: _validateInstallDir raises exactly when the (normalised)
target exists and is not a directory, and in install that error is raised
before any filesystem mutation at the destination: on the failing
configuration every emitted event is non-mutating (only the chdir to the
unpack directory), the run does not finish, and — whenever the patchelf
pre-check does not exit first — the outcome is precisely the raised
validation Error. -/
theorem validate_install_spec (fs : FS) (abspathF : String → String)
    (unpackDir : String) (isWin havePatchelf setRootRunpath : Bool)
    (installDir : String) :
    (_validateInstallDir fs (abspathF installDir) = Except.ok ()
      ↔ ¬(fs.pathExists (abspathF installDir) = true
          ∧ fs.isdir (abspathF installDir) = false))
    ∧ (fs.pathExists (abspathF installDir) = true →
        fs.isdir (abspathF installDir) = false →
        (∀ e ∈ (install fs abspathF unpackDir isWin havePatchelf
            setRootRunpath installDir).1, mutatesDest e = false)
        ∧ (install fs abspathF unpackDir isWin havePatchelf setRootRunpath
            installDir).2 ≠ InstallOutcome.finishedOk
        ∧ ((setRootRunpath && !havePatchelf) = false →
            (install fs abspathF unpackDir isWin havePatchelf setRootRunpath
              installDir).2
              = InstallOutcome.raised (installErrMsg (abspathF installDir)))) := by
  constructor
  · unfold _validateInstallDir
    split_ifs with h
    · simp only [Bool.and_eq_true, Bool.not_eq_true'] at h
      refine iff_of_false (by simp) ?_
      intro hn
      exact hn h
    · simp only [Bool.and_eq_true, Bool.not_eq_true'] at h
      exact iff_of_true rfl h
  · intro hex hdir
    have hval : _validateInstallDir fs (abspathF installDir)
        = Except.error (installErrMsg (abspathF installDir)) := by
      unfold _validateInstallDir
      rw [if_pos (by simp [hex, hdir])]
    by_cases hsr : (setRootRunpath && !havePatchelf) = true
    · unfold install
      rw [if_pos hsr]
      refine ⟨?_, ?_, ?_⟩
      · intro e he
        cases he
      · intro hc
        exact InstallOutcome.noConfusion hc
      · intro hf
        rw [hsr] at hf
        cases hf
    · unfold install
      rw [if_neg hsr, hval]
      refine ⟨?_, ?_, ?_⟩
      · intro e he
        have : e = FsEvent.chdirEvent unpackDir := List.mem_singleton.mp he
        rw [this]
        rfl
      · intro hc
        exact InstallOutcome.noConfusion hc
      · intro _
        rfl

def fsNonDirTarget : FS where
  isdir := fun _ => false
  isfile := fun _ => false
  pathExists := fun p => decide (p = "/opt/AP")

theorem validate_install_witness :
    (∀ e ∈ (install fsNonDirTarget id "/unpack" false true false
        "/opt/AP").1, mutatesDest e = false)
    ∧ (install fsNonDirTarget id "/unpack" false true false "/opt/AP").2
        ≠ InstallOutcome.finishedOk
    ∧ (install fsNonDirTarget id "/unpack" false true false "/opt/AP").2
        = InstallOutcome.raised (installErrMsg "/opt/AP") := by
  have h := (validate_install_spec fsNonDirTarget id "/unpack" false true
    false "/opt/AP").2 (by decide) (by decide)
  exact ⟨h.1, h.2.1, h.2.2 (by decide)⟩

/-!
The mainline (main of src/_install.py): option handling and exit codes.
-/

structure MainOpts where
  installDir : Option String
  registerCOM : Bool
  pathAdditions : Bool
  useEnv : Bool

def initOpts : MainOpts :=
  { installDir := none, registerCOM := true, pathAdditions := true,
    useEnv := false }

inductive CliOpt where
  | helpOpt
  | versionOpt
  | useEnvShebang
  | verboseOpt
  | installDirOpt (dir : String)
  | noComRegistration
  | noPathAdditions

/-- The option-processing for loop of main; none models the early return
taken when --help or --version is encountered (Python returns None there,
hence exit status 0). -/
def mainLoop : List CliOpt → MainOpts → Option MainOpts
  | [], acc => some acc
  | CliOpt.helpOpt :: _, _ => none
  | CliOpt.versionOpt :: _, _ => none
  | CliOpt.useEnvShebang :: rest, acc =>
    mainLoop rest { acc with useEnv := true }
  | CliOpt.verboseOpt :: rest, acc => mainLoop rest acc
  | CliOpt.installDirOpt d :: rest, acc =>
    mainLoop rest { acc with installDir := some d }
  | CliOpt.noComRegistration :: rest, acc =>
    mainLoop rest { acc with registerCOM := false }
  | CliOpt.noPathAdditions :: rest, acc =>
    mainLoop rest { acc with pathAdditions := false }

/-- The outcome of the try block of main that runs interactiveInstall or
install: it finishes, raises EnvironmentError or Error (both caught with
return 1), or is interrupted (KeyboardInterrupt, caught with a bare pass). -/
inductive RunResult where
  | finished
  | raisedEnvError (msg : String)
  | raisedError (msg : String)
  | interrupted

/-- Embedding of main (src/_install.py); named pymain because Lean reserves
the name main for executable entry points. The getopt result is abstracted
as an Except value and the try block as a RunResult. Falling off the end of
the Python function returns None. -/
def pymain : Except String (List CliOpt) → RunResult → Option Nat
  | Except.error _, _ => some 1
  | Except.ok opts, run =>
    match mainLoop opts initOpts with
    | none => none
    | some _ =>
      match run with
      | RunResult.finished => none
      | RunResult.raisedEnvError _ => some 1
      | RunResult.raisedError _ => some 1
      | RunResult.interrupted => none

/-- sys.exit(main(sys.argv)): sys.exit(None) exits with status 0, an integer
exits with that status. -/
def exitCode (r : Option Nat) : Nat :=
  match r with
  | none => 0
  | some n => n

/-- Claim C7 counterexample: a run cancelled by interrupt (KeyboardInterrupt
is caught by main's handler, which only logs and passes) makes main return
None, so the process exits with status 0 — not non-zero as claimed. -/
theorem main_interrupt_exit_zero_cx :
    exitCode (pymain (Except.ok []) RunResult.interrupted) = 0 := rfl

/-- Claim C7 (amended): option-parsing errors and install-time
EnvironmentError/Error failures each make main return 1, so the process
exits non-zero; but user cancellation by interrupt is swallowed — main
returns None and the process exits 0. -/
theorem main_exit_code_spec (msg : String) (opts : List CliOpt)
    (run : RunResult) (o : MainOpts)
    (h : mainLoop opts initOpts = some o) :
    exitCode (pymain (Except.error msg) run) = 1
    ∧ exitCode (pymain (Except.ok opts) (RunResult.raisedEnvError msg)) = 1
    ∧ exitCode (pymain (Except.ok opts) (RunResult.raisedError msg)) = 1
    ∧ exitCode (pymain (Except.ok opts) RunResult.interrupted) = 0 := by
  refine ⟨rfl, ?_, ?_, ?_⟩
  all_goals
    simp only [pymain]
    rw [h]
    rfl

theorem main_exit_code_witness :
    exitCode (pymain (Except.error "boom") RunResult.finished) = 1
    ∧ exitCode (pymain (Except.ok []) (RunResult.raisedEnvError "boom")) = 1
    ∧ exitCode (pymain (Except.ok []) (RunResult.raisedError "boom")) = 1
    ∧ exitCode (pymain (Except.ok []) RunResult.interrupted) = 0 :=
  main_exit_code_spec "boom" [] RunResult.finished initOpts rfl
